import Mathlib

/-!
Verification development for the company-enrichment pipeline: a shallow
embedding of the CSV parser, row validator, AI cleaner, news-enrichment
service, upload orchestrator and company-store operations, together with
theorems settling the specification claims about them.

Conventions of the embedding:
* runtime JSON-like values delivered by external collaborators are the
  inductive `JVal`;
* a JavaScript string-record (a CSV row after header normalization) is an
  association list `RawRecord` written in insertion order;
* stateful store operations take and return an explicit `Store` value;
* fallible operations return `Except String` or `Option`;
* timestamps and generated ids are threaded as explicit `Nat` parameters.
-/

namespace Throxy

/-- Runtime JSON-ish value, as delivered by an external collaborator
(the AI model's parsed response body). -/
inductive JVal where
  | jnull
  | jbool (b : Bool)
  | jnum (n : Int)
  | jstr (s : String)
  | jarr (elems : List JVal)
  | jobj (fields : List (String × JVal))

/-- JavaScript truthiness of a runtime value. Objects and arrays are always
truthy; `null`, `false`, `0` and the empty string are falsy. -/
def jsTruthy : JVal → Bool
  | .jnull => false
  | .jbool b => b
  | .jnum n => n != 0
  | .jstr s => s != ""
  | .jarr _ => true
  | .jobj _ => true

/-- Property read on a runtime value: `v[k]`, which is `undefined` (`none`)
unless `v` is an object carrying the key. A JS object never holds a key
twice, so the first binding is the binding. -/
def getProp : JVal → String → Option JVal
  | .jobj fields, k => (fields.find? (fun p => p.1 == k)).map (fun p => p.2)
  | _, _ => none

/-- A CSV row after header normalization: a JS object of string fields,
kept as an association list in insertion order (`Record<string, string>`). -/
abbrev RawRecord := List (String × String)

/-- Field read `row[k]` on a string record: `undefined` (`none`) when the
key is absent. -/
def jsGet (r : RawRecord) (k : String) : Option String :=
  (r.find? (fun p => p.1 == k)).map (fun p => p.2)

/-- Field write `row[k] = v` on a string record: overwrite in place when the
key exists, append otherwise (JS object assignment). -/
def jsSet (r : RawRecord) (k v : String) : RawRecord :=
  if r.any (fun p => p.1 == k) then
    r.map (fun p => if p.1 == k then (k, v) else p)
  else
    r ++ [(k, v)]

/-- JS truthiness of an optional string field: absent (`undefined`) and the
empty string are falsy, every other string is truthy. -/
def jsTruthyField : Option String → Bool
  | none => false
  | some s => s != ""

/-- Lowercasing of a string (`toLowerCase()`), written over the character
list so that it evaluates by kernel reduction. -/
def strToLower (s : String) : String :=
  ⟨s.data.map Char.toLower⟩

/-- Trimming of surrounding whitespace (`trim()`), written over the
character list so that it evaluates by kernel reduction. -/
def strTrim (s : String) : String :=
  ⟨((s.data.dropWhile Char.isWhitespace).reverse.dropWhile
      Char.isWhitespace).reverse⟩

/-- Split of a character list at every occurrence of a separator character;
an empty list yields one empty field, mirroring JS `split`. -/
def splitOnChar (sep : Char) (cs : List Char) : List (List Char) :=
  cs.foldr
    (fun c acc =>
      if c = sep then [] :: acc
      else
        match acc with
        | h :: t => (c :: h) :: t
        | [] => [[c]])
    [[]]

/-- `split("\n")` of a string, via `splitOnChar`. -/
def splitLines (s : String) : List String :=
  (splitOnChar '\n' s.data).map (fun cs => String.mk cs)

/-- The eight fixed employee-size bucket labels (`EMPLOYEE_SIZE_BUCKETS` in
`src/lib/types.ts`). -/
def EMPLOYEE_SIZE_BUCKETS : List String :=
  ["1-10", "11-50", "51-200", "201-500", "501-1,000", "1,001-5,000",
   "5,001-10,000", "10,000+"]

/-- A cleaned company record (`CleanedData` in `src/lib/ai/types.ts`).
The TypeScript declaration types `country` as `string`, but the response
validator in `cleaning.ts` deliberately admits `null` there, so the runtime
value is an optional string; `domain` is declared `string | null`. -/
structure CleanCompany where
  name : String
  domain : Option String
  country : Option String
  employee_size : String
  raw_json : RawRecord
deriving DecidableEq

/-- A news article as consumed by the enrichment service (only the fields
the pipeline reads: title, content, url, publishedAt). -/
structure NewsArticle where
  title : String
  content : String
  url : String
  publishedAt : String
deriving DecidableEq

/-- The seven fixed signal categories (`CompanySignals` in
`src/lib/types.ts`). Each category is declared `string[]`, but the
validator casts without checking elements, so at runtime a category holds
arbitrary values; we keep them as `JVal`. -/
structure CompanySignals where
  recent_news : List JVal
  hiring_signals : List JVal
  funding_events : List JVal
  technology_adoption : List JVal
  trigger_events : List JVal
  growth_indicators : List JVal
  leadership_changes : List JVal

/-- The result of enriching one company (`EnrichmentResult`). The
`enriched_at` timestamp is the clock reading passed in by the caller. -/
structure EnrichmentResult where
  signals : CompanySignals
  sources : List String
  enriched_at : Nat
  confidence_score : Nat

/-- Resolved response object of the AI Model collaborator
(`CleaningResponse` shape: `{success, data?, error?, tokensUsed?, cost?}`).
`data` is kept as a runtime value because the callers validate it. -/
structure AIResponse where
  success : Bool
  data : Option JVal
  error : Option String
  tokensUsed : Option Nat
  cost : Option Nat

/-- Outcome of one call to the AI Model collaborator: the promise either
rejects (throws) or resolves to a response object. -/
inductive AICall where
  | throws (msg : String)
  | returns (resp : AIResponse)

namespace CompanyEnrichmentService

/-- The all-empty-arrays default `CompanySignals`
(`getEmptySignals` in `src/lib/enrichment/service.ts`). -/
def getEmptySignals : CompanySignals :=
  ⟨[], [], [], [], [], [], []⟩

/-- One category decode step of `validateSignals`:
`Array.isArray(v) ? v : []` applied to a possibly-absent property. -/
def arrayOrEmpty : Option JVal → List JVal
  | some (.jarr xs) => xs
  | _ => []

/-- The guard `typeof data === "object" && data` of `validateSignals`:
JS arrays and plain objects have `typeof "object"` and are truthy;
`null` also has `typeof "object"` but is falsy. -/
def isJsObjectLike : JVal → Bool
  | .jobj _ => true
  | .jarr _ => true
  | _ => false

/-- `validateSignals` from `src/lib/enrichment/service.ts`: non-object data
yields the default; otherwise each of the seven categories independently
keeps the property when it is an array and falls back to `[]`. An array
input passes the guard but carries none of the named properties, so every
category decodes to `[]`. -/
def validateSignals (data : JVal) : CompanySignals :=
  if isJsObjectLike data then
    { recent_news := arrayOrEmpty (getProp data "recent_news")
      hiring_signals := arrayOrEmpty (getProp data "hiring_signals")
      funding_events := arrayOrEmpty (getProp data "funding_events")
      technology_adoption := arrayOrEmpty (getProp data "technology_adoption")
      trigger_events := arrayOrEmpty (getProp data "trigger_events")
      growth_indicators := arrayOrEmpty (getProp data "growth_indicators")
      leadership_changes := arrayOrEmpty (getProp data "leadership_changes") }
  else
    getEmptySignals

/-- `extractSignalsFromNews`, with the AI Model call outcome explicit: a
rejected call, an unsuccessful response, or falsy response data all throw
inside the local try block and degrade to the empty default; otherwise the
response data is validated per category. -/
def extractSignalsFromNews (ai : AICall) : CompanySignals :=
  match ai with
  | .throws _ => getEmptySignals
  | .returns resp =>
      match resp.data with
      | none => getEmptySignals
      | some d =>
          if resp.success && jsTruthy d then validateSignals d
          else getEmptySignals

/-- Whether the AI step of enrichment failed (rejected call, unsuccessful
response, or falsy/absent response data): the condition under which
`extractSignalsFromNews` degrades to the empty default. -/
def aiCallFailed : AICall → Bool
  | .throws _ => true
  | .returns resp =>
      match resp.data with
      | none => true
      | some d => !(resp.success && jsTruthy d)

/-- `Object.values(signals).flat().length`: the total number of extracted
signals across the seven categories. -/
def totalSignalCount (s : CompanySignals) : Nat :=
  s.recent_news.length + s.hiring_signals.length + s.funding_events.length +
    s.technology_adoption.length + s.trigger_events.length +
    s.growth_indicators.length + s.leadership_changes.length

/-- `calculateConfidenceScore` from `src/lib/enrichment/service.ts`,
reproduced step by step. -/
def calculateConfidenceScore (newsResults : List NewsArticle)
    (signals : CompanySignals) : Nat :=
  let score0 := min (newsResults.length * 10) 30
  let score1 := score0 + min (totalSignalCount signals * 5) 40
  let score2 := if signals.funding_events.length > 0 then score1 + 20 else score1
  let score3 := if signals.leadership_changes.length > 0 then score2 + 15 else score2
  let score4 := if signals.hiring_signals.length > 0 then score3 + 10 else score3
  min score4 100

/-- `enrichCompany`: the news search outcome and the AI call outcome are
explicit. Every step after a successful news search is total, so the outer
try/catch rethrows exactly when the news search itself throws. -/
def enrichCompany (news : Except String (List NewsArticle)) (ai : AICall)
    (now : Nat) : Except String EnrichmentResult :=
  match news with
  | .error msg => .error ("Failed to enrich company data: " ++ msg)
  | .ok newsResults =>
      let signals := extractSignalsFromNews ai
      let confidenceScore := calculateConfidenceScore newsResults signals
      .ok { signals := signals
            sources := newsResults.map (fun a => a.url)
            enriched_at := now
            confidence_score := confidenceScore }

/-- The seven signal category keys, in the order the prompt and the
validator enumerate them. -/
def signalCategories : List String :=
  ["recent_news", "hiring_signals", "funding_events", "technology_adoption",
   "trigger_events", "growth_indicators", "leadership_changes"]

/-- Projection of a `CompanySignals` record by category key. -/
def categoryOf (s : CompanySignals) : String → List JVal
  | "recent_news" => s.recent_news
  | "hiring_signals" => s.hiring_signals
  | "funding_events" => s.funding_events
  | "technology_adoption" => s.technology_adoption
  | "trigger_events" => s.trigger_events
  | "growth_indicators" => s.growth_indicators
  | "leadership_changes" => s.leadership_changes
  | _ => []

/-- A concrete malformed AI response body: `recent_news` is a decodable
array while `hiring_signals` is a number, not an array. -/
def partiallyMalformedSignals : JVal :=
  .jobj [("recent_news", .jarr [.jstr "kept"]), ("hiring_signals", .jnum 5)]

end CompanyEnrichmentService

/-- Parse options of the CSV parser (`CSVParseOptions`), both defaulting to
`true` as in the source constructor. -/
structure CSVParseOptions where
  skipEmptyLines : Bool := true
  trimFields : Bool := true

/-- Result of a CSV parse (`CSVParseResult`). -/
structure CSVParseResult where
  data : List RawRecord
  warnings : List String
deriving DecidableEq

namespace CSVParser

/-- The options the upload service constructs the parser with when none are
given: both flags default to `true`. -/
def defaultOptions : CSVParseOptions := {}

/-- Removal of one leading double quote when present. -/
def dropLeadingQuote : List Char → List Char
  | '"' :: rest => rest
  | l => l

/-- Removal of one trailing double quote when present. -/
def dropTrailingQuote (l : List Char) : List Char :=
  match l.reverse with
  | '"' :: rest => rest.reverse
  | _ => l

/-- The quote-stripping step `field.replace(/^"|"$/g, "")`: one leading and
one trailing double-quote character are removed when present (on the
one-character string consisting of a quote, only the leading match fires). -/
def stripOuterQuotes (s : String) : String :=
  ⟨dropTrailingQuote (dropLeadingQuote s.data)⟩

/-- State of the character scan of `parseCSVLine`: fields emitted so far,
the field being accumulated, and whether the scan is inside a quoted span. -/
structure LineScanState where
  fields : List String
  current : String
  inQuotes : Bool

/-- One character step of `parseCSVLine`: a double quote toggles the quoted
span, a comma outside quotes ends the field, anything else is accumulated. -/
def lineScanStep (st : LineScanState) (c : Char) : LineScanState :=
  if c = '"' then
    { st with inQuotes := !st.inQuotes }
  else if c = ',' && !st.inQuotes then
    { fields := st.fields ++ [st.current], current := "", inQuotes := st.inQuotes }
  else
    { st with current := st.current.push c }

/-- `parseCSVLine` of the active parser (`src/lib/csv/parser`): split on
commas outside double-quoted spans, then strip surrounding quotes from each
field. This function is total: the try/catch around it in `parseDataRows`
can never fire. -/
def parseCSVLine (line : String) : List String :=
  let st := line.data.foldl lineScanStep ⟨[], "", false⟩
  (st.fields ++ [st.current]).map stripOuterQuotes

/-- The header synonym map of the active `CSVParser.normalizeHeader`: only
`company_name`, `domain` and `employee_size` are present. -/
def headerMap : List (String × String) :=
  [("company_name", "name"), ("domain", "domain"),
   ("employee_size", "employee_size")]

/-- `normalizeHeader` of the active parser: lowercase and trim, then apply
the synonym map, passing unrecognized headers through. -/
def normalizeHeader (header : String) : String :=
  let normalized := strTrim (strToLower header)
  match headerMap.find? (fun p => p.1 == normalized) with
  | some p => p.2
  | none => normalized

/-- `preprocessLines`: split the input on newlines and, when configured,
drop lines that are blank after trimming. -/
def preprocessLines (opts : CSVParseOptions) (csvData : String) : List String :=
  let lines := splitLines csvData
  if opts.skipEmptyLines then
    lines.filter (fun l => (strTrim l).length > 0)
  else
    lines

/-- `parseDataRows`: skip blank lines when configured (dead when they were
already dropped by `preprocessLines`) and split each remaining line; the
per-line try/catch never fires because `parseCSVLine` is total, so no
warnings arise here. -/
def parseDataRows (opts : CSVParseOptions) (dataLines : List String) :
    List (List String) :=
  (dataLines.filter
      (fun l => !(opts.skipEmptyLines && (strTrim l).length == 0))).map
    parseCSVLine

/-- One row of `transformToObjects`: assign each header's field into the
record in header order, with missing trailing fields becoming the empty
string and fields trimmed when configured. -/
def buildObj (opts : CSVParseOptions) (headers : List String)
    (row : List String) : RawRecord :=
  headers.enum.foldl
    (fun o p =>
      let v := (row.get? p.1).getD ""
      jsSet o p.2 (if opts.trimFields then strTrim v else v))
    ([] : RawRecord)

/-- `transformToObjects` with the running row index explicit: each row
whose field count differs from the header count contributes a warning
`Row <n>: Expected <h> columns, got <c>`, and every row still becomes a
best-effort record. -/
def transformToObjectsFrom (opts : CSVParseOptions) (headers : List String) :
    Nat → List (List String) → List RawRecord × List String
  | _, [] => ([], [])
  | i, row :: rest =>
      let (objs, warns) := transformToObjectsFrom opts headers (i + 1) rest
      let w :=
        if row.length ≠ headers.length then
          ["Row " ++ toString (i + 2) ++ ": Expected " ++
            toString headers.length ++ " columns, got " ++
            toString row.length]
        else []
      (buildObj opts headers row :: objs, w ++ warns)

/-- `parse`: preprocess, check the basic structure (failing with the
source's two error messages), normalize headers, then transform the data
rows. The only failures are the two structural ones. -/
def parse (opts : CSVParseOptions) (csvData : String) :
    Except String CSVParseResult :=
  match preprocessLines opts csvData with
  | [] => .error "CSV is empty"
  | [_] => .error "CSV must have at least a header and one data row"
  | headerLine :: dataLines =>
      let headers := (parseCSVLine headerLine).map normalizeHeader
      let rows := parseDataRows opts dataLines
      let (data, warnings) := transformToObjectsFrom opts headers 0 rows
      .ok { data := data, warnings := warnings }

end CSVParser

namespace LegacyUploadService

/-- The header synonym map of the legacy `UploadService.normalizeHeader`
(the unnamed upload-service source file): the full set of known synonyms. -/
def headerMap : List (String × String) :=
  [("company_name", "name"), ("company", "name"), ("name", "name"),
   ("domain", "domain"), ("website", "domain"), ("url", "domain"),
   ("country", "country"), ("location", "country"),
   ("employee_size", "employee_size"), ("employees", "employee_size"),
   ("size", "employee_size"), ("headcount", "employee_size")]

/-- `normalizeHeader` of the legacy upload service: lowercase and trim,
then apply the full synonym map, passing unrecognized headers through. -/
def normalizeHeader (header : String) : String :=
  let normalized := strTrim (strToLower header)
  match headerMap.find? (fun p => p.1 == normalized) with
  | some p => p.2
  | none => normalized

end LegacyUploadService

/-- A per-row validation diagnostic (`ValidationError` in
`src/lib/csv/validator.ts`). -/
structure ValidationError where
  rowIndex : Nat
  data : RawRecord
  error : String
deriving DecidableEq

namespace CSVValidator

/-- Shape validation (`validate`): `RawCompanySchema` declares four
optional string fields with passthrough, so every string-keyed string
record — which is everything the parser can produce — parses successfully;
the invalid list is empty on such inputs. -/
def validate (data : List RawRecord) : List RawRecord × List ValidationError :=
  (data, [])

/-- Character class `[a-zA-Z0-9]` of the domain regex. -/
def isAlnumAscii (c : Char) : Bool :=
  c.isAlpha || c.isDigit

/-- The scheme-stripping step `domain.replace(/^https?:\/\//, "")`. -/
def stripScheme (s : String) : String :=
  match s.data with
  | 'h' :: 't' :: 't' :: 'p' :: 's' :: ':' :: '/' :: '/' :: rest => ⟨rest⟩
  | 'h' :: 't' :: 't' :: 'p' :: ':' :: '/' :: '/' :: rest => ⟨rest⟩
  | _ => s

/-- The anchored domain regex
`/^[a-zA-Z0-9][a-zA-Z0-9-]*[a-zA-Z0-9]*\.[a-zA-Z]{2,}$/`: an alphanumeric
first character, then alphanumerics or hyphens (the regex's two middle
classes recognize together exactly `[a-zA-Z0-9-]*`), one literal dot, and
a TLD of at least two letters. -/
def matchesDomainPattern (s : String) : Bool :=
  match splitOnChar '.' s.data with
  | [label, tld] =>
      (match label with
        | [] => false
        | c :: rest =>
            isAlnumAscii c && rest.all (fun d => isAlnumAscii d || d == '-'))
        && decide (2 ≤ tld.length) && tld.all Char.isAlpha
  | _ => false

/-- `isValidDomain`: strip an optional scheme, then match the pattern. -/
def isValidDomain (domain : String) : Bool :=
  matchesDomainPattern (stripScheme domain)

/-- `validateBusinessRules` with the running row offset explicit: rule 1
rejects a row whose `name` and `domain` fields are both falsy; rule 2
rejects a truthy `domain` that fails the pattern; diagnostics carry the
row's 1-based index counting the header (`i + 2`). -/
def validateBusinessRulesFrom : Nat → List RawRecord → List ValidationError
  | _, [] => []
  | i, row :: rest =>
      let e1 :=
        if !jsTruthyField (jsGet row "name") &&
            !jsTruthyField (jsGet row "domain") then
          [{ rowIndex := i + 2, data := row,
             error := "Company must have either a name or domain" }]
        else []
      let e2 :=
        if jsTruthyField (jsGet row "domain") &&
            !isValidDomain ((jsGet row "domain").getD "") then
          [{ rowIndex := i + 2, data := row,
             error := "Invalid domain format: " ++
               (jsGet row "domain").getD "" }]
        else []
      e1 ++ e2 ++ validateBusinessRulesFrom (i + 1) rest

/-- `validateBusinessRules` over a whole row list. -/
def validateBusinessRules (data : List RawRecord) : List ValidationError :=
  validateBusinessRulesFrom 0 data

end CSVValidator

namespace CompanyDataAICleaner

/-- `isValidCleanedData` from `src/lib/ai/cleaning.ts`: the response must
be an object (a JS array would fail every `in` check) with a non-empty
string `name`, a `domain` that is a string or null, a `country` that is a
string or null (deliberately, per the source comment), and an
`employee_size` that is exactly one of the eight bucket labels. -/
def isValidCleanedData (d : JVal) : Bool :=
  match d with
  | .jobj _ =>
      (match getProp d "name" with
        | some (.jstr s) => decide (0 < s.length)
        | _ => false) &&
      (match getProp d "domain" with
        | some .jnull => true
        | some (.jstr _) => true
        | _ => false) &&
      (match getProp d "country" with
        | some (.jstr _) => true
        | some .jnull => true
        | _ => false) &&
      (match getProp d "employee_size" with
        | some (.jstr s) => EMPLOYEE_SIZE_BUCKETS.contains s
        | _ => false)
  | _ => false

/-- Projection of a validated response body into a `CleanCompany` (the
field copies of `cleanData`); the fallback arms are unreachable once
`isValidCleanedData` holds. -/
def extractCleaned (d : JVal) (raw : RawRecord) : CleanCompany :=
  { name :=
      match getProp d "name" with
      | some (.jstr s) => s
      | _ => ""
    domain :=
      match getProp d "domain" with
      | some (.jstr s) => some s
      | _ => none
    country :=
      match getProp d "country" with
      | some (.jstr s) => some s
      | _ => none
    employee_size :=
      match getProp d "employee_size" with
      | some (.jstr s) => s
      | _ => ""
    raw_json := raw }

/-- A cleaning response (`CleaningResponse` in `src/lib/ai/types.ts`). -/
structure CleaningResponse where
  success : Bool
  data : Option CleanCompany
  error : Option String
  tokensUsed : Option Nat
  cost : Option Nat
deriving DecidableEq

/-- `cleanData`: skip rows without a usable name; a rejected AI call, an
unsuccessful or data-less response, falsy response data, or a response
failing shape validation all yield `null`; otherwise a success response
carrying the extracted record. The whole body is wrapped in try/catch, so
`cleanData` itself never throws. -/
def cleanData (raw : RawRecord) (ai : AICall) : Option CleaningResponse :=
  match jsGet raw "name" with
  | none => none
  | some nm =>
      if strTrim nm == "" then none
      else
        match ai with
        | .throws _ => none
        | .returns resp =>
            match resp.data with
            | none => none
            | some d =>
                if !resp.success || !jsTruthy d then none
                else if !isValidCleanedData d then none
                else
                  some { success := true
                         data := some (extractCleaned d raw)
                         error := none
                         tokensUsed := resp.tokensUsed
                         cost := resp.cost }

end CompanyDataAICleaner

/-- A persisted company row (`Company` of the store schema): identifier,
cleaned fields, audit timestamps and the enrichment attachment. Identifiers
and timestamps are modelled as naturals threaded by the caller. -/
structure Company where
  id : Nat
  name : String
  domain : Option String
  country : Option String
  employee_size : String
  raw_json : RawRecord
  enrichment_data : Option EnrichmentResult
  enriched_at : Option Nat
  created_at : Nat
  updated_at : Nat

/-- The company store: rows in insertion order (the model of the `LIMIT 1`
unordered selects takes the first match in this order). -/
abbrev Store := List Company

namespace CompanyStore

/-- `findByDomain`: first stored company whose domain equals the given
one. -/
def findByDomain (s : Store) (d : String) : Option Company :=
  s.find? (fun c => c.domain == some d)

/-- `findByName`: first stored company whose name equals the given one. -/
def findByName (s : Store) (n : String) : Option Company :=
  s.find? (fun c => c.name == n)

/-- The update half of `upsertCompany`: spread the cleaned fields over the
existing row and stamp `updated_at`. -/
def applyCleanedFields (c : Company) (nc : CleanCompany) (now : Nat) :
    Company :=
  { c with
    name := nc.name
    domain := nc.domain
    country := nc.country
    employee_size := nc.employee_size
    raw_json := nc.raw_json
    updated_at := now }

/-- `createCompany`: the fresh row built on insert, with the generated id
and the current timestamps. -/
def createCompany (nc : CleanCompany) (newId now : Nat) : Company :=
  { id := newId
    name := nc.name
    domain := nc.domain
    country := nc.country
    employee_size := nc.employee_size
    raw_json := nc.raw_json
    enrichment_data := none
    enriched_at := none
    created_at := now
    updated_at := now }

/-- `upsertCompany`: look up by domain when the domain is truthy, fall back
to a lookup by name when that found nothing and the name is truthy; update
the match in place when one exists (`wasUpdated = true`), insert a fresh
row otherwise (`wasUpdated = false`). -/
def upsertCompany (s : Store) (nc : CleanCompany) (newId now : Nat) :
    Store × Company × Bool :=
  let byDomain :=
    match nc.domain with
    | some d => if d ≠ "" then findByDomain s d else none
    | none => none
  let existing :=
    match byDomain with
    | some e => some e
    | none => if nc.name ≠ "" then findByName s nc.name else none
  match existing with
  | some e =>
      let updated := applyCleanedFields e nc now
      (s.map (fun c => if c.id == e.id then updated else c), updated, true)
  | none =>
      (s ++ [createCompany nc newId now], createCompany nc newId now, false)

/-- `updateCompanyEnrichment`: attach an enrichment result to the row with
the given id, stamping `enriched_at` and `updated_at`; fails when no row
carries the id. -/
def updateCompanyEnrichment (s : Store) (cid : Nat) (er : EnrichmentResult)
    (now : Nat) : Except String Store :=
  if s.any (fun c => c.id == cid) then
    .ok (s.map (fun c =>
      if c.id == cid then
        { c with
          enrichment_data := some er
          enriched_at := some now
          updated_at := now }
      else c))
  else
    .error ("Company with id " ++ toString cid ++ " not found")

end CompanyStore

/-- The accumulator of one pipeline run (`UploadResult`). `totalCost` is
initialized to zero and never touched by `processCSV`. -/
structure UploadResult where
  processed : Nat
  inserted : Nat
  updated : Nat
  errors : Nat
  errorDetails : List String
  totalCost : Nat
  enriched : Nat
  enrichmentErrors : Nat
  enrichmentSkipped : Nat

namespace UploadService

/-- The diagnostic string format `Row <n>: <reason>` of the orchestrator. -/
def formatRowError (e : ValidationError) : String :=
  "Row " ++ toString e.rowIndex ++ ": " ++ e.error

/-- Outcome of the validation block of `processCSV` (its lines 63–90):
shape validation, business rules, diagnostics, and the surviving rows —
those with no business-rule diagnostic — that are handed to the cleaner. -/
structure ValidationPhaseResult where
  validatedRows : List RawRecord
  errors : Nat
  errorDetails : List String

/-- The validation block of `processCSV`: shape-validate, apply business
rules to the shape-valid rows, count both error lists, format their
diagnostics, and keep only rows that appear in no business-rule error. -/
def validationPhase (rows : List RawRecord) : ValidationPhaseResult :=
  let v := CSVValidator.validate rows
  let bre := CSVValidator.validateBusinessRules v.1
  { validatedRows :=
      v.1.filter (fun row => !(bre.any (fun e => e.data == row)))
    errors := v.2.length + bre.length
    errorDetails := v.2.map formatRowError ++ bre.map formatRowError }

/-- Outcome of the cleaning block of `processCSV`: the successful cleaning
responses in row order, the failure count, and the failure diagnostics. -/
structure CleaningPhaseResult where
  cleanedCompanies : List CompanyDataAICleaner.CleaningResponse
  cleaningErrors : Nat
  errorDetails : List String

/-- The cleaning block of `processCSV` with the running row index
explicit. The per-row wrapper task never rejects (`cleanData` never
throws), and `Promise.allSettled` returns results in input order, so the
fold is over the rows in order: a non-null response is collected, a null
one increments the error count with the diagnostic
`Row <n>: AI cleaning failed - undefined` (the wrapper's `error` field is
undefined for a fulfilled null). -/
def cleaningPhaseFrom : Nat → List (RawRecord × AICall) → CleaningPhaseResult
  | _, [] => ⟨[], 0, []⟩
  | i, (row, ai) :: rest =>
      let r := cleaningPhaseFrom (i + 1) rest
      match CompanyDataAICleaner.cleanData row ai with
      | some resp =>
          ⟨resp :: r.cleanedCompanies, r.cleaningErrors, r.errorDetails⟩
      | none =>
          ⟨r.cleanedCompanies, r.cleaningErrors + 1,
            ("Row " ++ toString (i + 1) ++
              ": AI cleaning failed - undefined") :: r.errorDetails⟩

/-- The cleaning block over row/AI-outcome pairs, indices starting at 0
(the source's `rowIndex` is the map index plus one). -/
def cleaningPhase (pairs : List (RawRecord × AICall)) : CleaningPhaseResult :=
  cleaningPhaseFrom 0 pairs

/-- Outcome of the upsert block of `processCSV`: the store after the
sequential upserts, the insert/update/error counts, the diagnostics, and
the companies saved for the enrichment phase. -/
structure UpsertPhaseResult where
  store : Store
  inserted : Nat
  updated : Nat
  errors : Nat
  errorDetails : List String
  savedCompanies : List Company

/-- The upsert block of `processCSV`: for each cleaning response in order,
a missing payload is counted as an error, a store failure (modelled by the
`dbFail` oracle) is counted as a database error, and otherwise the record
is upserted with a fresh id, classified as inserted or updated. -/
def upsertPhaseFrom (dbFail : Nat → Option String) (ids : Nat → Nat)
    (now : Nat) :
    Nat → Store → List CompanyDataAICleaner.CleaningResponse →
      UpsertPhaseResult
  | _, s, [] => ⟨s, 0, 0, 0, [], []⟩
  | i, s, resp :: rest =>
      match resp.data with
      | none =>
          let r := upsertPhaseFrom dbFail ids now (i + 1) s rest
          ⟨r.store, r.inserted, r.updated, r.errors + 1,
            ("Row " ++ toString (i + 1) ++ ": AI cleaning failed") ::
              r.errorDetails,
            r.savedCompanies⟩
      | some c =>
          match dbFail i with
          | some msg =>
              let r := upsertPhaseFrom dbFail ids now (i + 1) s rest
              ⟨r.store, r.inserted, r.updated, r.errors + 1,
                ("Row " ++ toString (i + 1) ++ ": Database error - " ++
                  msg) :: r.errorDetails,
                r.savedCompanies⟩
          | none =>
              let u := CompanyStore.upsertCompany s c (ids i) now
              let r := upsertPhaseFrom dbFail ids now (i + 1) u.1 rest
              ⟨r.store,
                r.inserted + (if u.2.2 then 0 else 1),
                r.updated + (if u.2.2 then 1 else 0),
                r.errors, r.errorDetails,
                u.2.1 :: r.savedCompanies⟩

/-- Outcome of the enrichment block of `processCSV`. -/
structure EnrichmentPhaseResult where
  store : Store
  enriched : Nat
  enrichmentErrors : Nat
  errorDetails : List String

/-- The enrichment block of `processCSV`: one `enrichCompany` per saved
company with per-company news and AI outcomes, persisting each success.
The source fans these tasks out in parallel and joins with `allSettled`;
the store writes touch distinct row ids and the settled results are read
in input order, so the sequential fold in input order is the behaviour of
every completion order. -/
def enrichmentPhaseFrom (news : Nat → Except String (List NewsArticle))
    (eai : Nat → AICall) (now : Nat) :
    Nat → Store → List Company → EnrichmentPhaseResult
  | _, s, [] => ⟨s, 0, 0, []⟩
  | j, s, comp :: rest =>
      match CompanyEnrichmentService.enrichCompany (news j) (eai j) now with
      | .ok er =>
          match CompanyStore.updateCompanyEnrichment s comp.id er now with
          | .ok s1 =>
              let r := enrichmentPhaseFrom news eai now (j + 1) s1 rest
              ⟨r.store, r.enriched + 1, r.enrichmentErrors, r.errorDetails⟩
          | .error m =>
              let r := enrichmentPhaseFrom news eai now (j + 1) s rest
              ⟨r.store, r.enriched, r.enrichmentErrors + 1,
                ("Enrichment failed for " ++ comp.name ++ ": " ++ m) ::
                  r.errorDetails⟩
      | .error m =>
          let r := enrichmentPhaseFrom news eai now (j + 1) s rest
          ⟨r.store, r.enriched, r.enrichmentErrors + 1,
            ("Enrichment failed for " ++ comp.name ++ ": " ++ m) ::
              r.errorDetails⟩

/-- `processCSV` of the active upload service, with the collaborators
explicit: the cleaning AI outcome per validated-row index, the store
failure oracle per cleaned-row index, fresh row ids, and per-company news
and AI outcomes for enrichment. The three fatal aborts are the parse
failure, zero rows surviving validation, and all rows failing cleaning;
every other failure is absorbed into the counters and diagnostics. -/
def processCSV (opts : CSVParseOptions) (enableEnrichment : Bool)
    (cleanAI : Nat → AICall) (dbFail : Nat → Option String)
    (ids : Nat → Nat) (news : Nat → Except String (List NewsArticle))
    (enrichAI : Nat → AICall) (now : Nat) (store : Store)
    (csvData : String) : Except String (UploadResult × Store) :=
  match CSVParser.parse opts csvData with
  | .error e => .error ("CSV processing failed: " ++ e)
  | .ok pr =>
      let vp := validationPhase pr.data
      if vp.validatedRows.length = 0 then
        .error
          "CSV processing failed: No valid data rows found after validation"
      else
        let pairs := vp.validatedRows.enum.map (fun p => (p.2, cleanAI p.1))
        let cp := cleaningPhase pairs
        if cp.cleanedCompanies.length = 0 then
          .error "CSV processing failed: AI cleaning failed for all companies"
        else
          let up := upsertPhaseFrom dbFail ids now 0 store cp.cleanedCompanies
          let base : UploadResult :=
            { processed := pr.data.length
              inserted := up.inserted
              updated := up.updated
              errors := vp.errors + cp.cleaningErrors + up.errors
              errorDetails := pr.warnings ++ vp.errorDetails ++
                cp.errorDetails ++ up.errorDetails
              totalCost := 0
              enriched := 0
              enrichmentErrors := 0
              enrichmentSkipped := 0 }
          if enableEnrichment then
            if up.savedCompanies.length ≠ 0 then
              let ep := enrichmentPhaseFrom news enrichAI now 0 up.store
                up.savedCompanies
              .ok ({ base with
                      enriched := ep.enriched
                      enrichmentErrors := ep.enrichmentErrors
                      errorDetails := base.errorDetails ++ ep.errorDetails },
                ep.store)
            else
              .ok (base, up.store)
          else
            .ok ({ base with enrichmentSkipped := up.savedCompanies.length },
              up.store)

end UploadService

/-- A well-formed AI cleaning response body for concrete runs. -/
def sampleCleanBody : JVal :=
  .jobj [("name", .jstr "Acme"), ("domain", .jnull),
    ("country", .jstr "United States"), ("employee_size", .jstr "1-10")]

/-- An AI call outcome resolving successfully to `sampleCleanBody`. -/
def sampleAI : AICall :=
  .returns ⟨true, some sampleCleanBody, none, none, none⟩

/-- A response body whose `country` is null: accepted by the cleaner's
validator (deliberately), though the declared record type says string. -/
def nullCountryBody : JVal :=
  .jobj [("name", .jstr "Acme"), ("domain", .jnull), ("country", .jnull),
    ("employee_size", .jstr "1-10")]

/-- A parsed row with a usable name, for concrete cleaning runs. -/
def sampleRowAcme : RawRecord :=
  [("name", "Acme"), ("domain", "acme.com")]

/-- A parsed row whose name is empty: `cleanData` short-circuits to null
on it. -/
def sampleRowNoName : RawRecord :=
  [("name", "")]

/-- Three cleaning tasks of which exactly the middle one fails. -/
def samplePairs : List (RawRecord × AICall) :=
  [(sampleRowAcme, sampleAI), (sampleRowNoName, sampleAI),
   (sampleRowAcme, sampleAI)]

/-- The same three cleaning tasks with the first two swapped. -/
def samplePairsSwapped : List (RawRecord × AICall) :=
  [(sampleRowNoName, sampleAI), (sampleRowAcme, sampleAI),
   (sampleRowAcme, sampleAI)]

/-- The cleaning response produced on `sampleRowAcme` with `sampleAI`. -/
def sampleCleanResponse : CompanyDataAICleaner.CleaningResponse :=
  { success := true
    data := some ⟨"Acme", none, some "United States", "1-10", sampleRowAcme⟩
    error := none
    tokensUsed := none
    cost := none }

/-- A two-row CSV whose second data row lacks both name and domain. -/
def sampleCsv : String :=
  "name,domain\nAcme,acme.com\n,"

/-- The parsed rows of `sampleCsv`. -/
def sampleRows : List RawRecord :=
  [[("name", "Acme"), ("domain", "acme.com")], [("name", ""), ("domain", "")]]

/-- The concrete end-to-end run of `processCSV` on `sampleCsv` with all
collaborators succeeding and enrichment disabled. -/
def sampleRun : Except String (UploadResult × Store) :=
  UploadService.processCSV CSVParser.defaultOptions false (fun _ => sampleAI)
    (fun _ => none) (fun n => n) (fun _ => Except.ok []) (fun _ => sampleAI)
    0 [] sampleCsv

/-- The company row persisted by `sampleRun`. -/
def sampleCompany : Company :=
  { id := 0
    name := "Acme"
    domain := none
    country := some "United States"
    employee_size := "1-10"
    raw_json := [("name", "Acme"), ("domain", "acme.com")]
    enrichment_data := none
    enriched_at := none
    created_at := 0
    updated_at := 0 }

/-- A cleaned record with a truthy domain, for concrete upsert runs. -/
def sampleNewCompany : CleanCompany :=
  ⟨"Acme", some "acme.com", some "United States", "1-10", []⟩

/-- A stored company sharing `sampleNewCompany`'s name but carrying no
domain. -/
def sampleExisting : Company :=
  { id := 5
    name := "Acme"
    domain := none
    country := none
    employee_size := "1-10"
    raw_json := []
    enrichment_data := none
    enriched_at := none
    created_at := 0
    updated_at := 0 }

/-- The upload result of `sampleRun`. -/
def sampleResult : UploadResult :=
  { processed := 2
    inserted := 1
    updated := 0
    errors := 1
    errorDetails := ["Row 3: Company must have either a name or domain"]
    totalCost := 0
    enriched := 0
    enrichmentErrors := 0
    enrichmentSkipped := 1 }

end Throxy

namespace Throxy

open CompanyEnrichmentService

/-- C1: for every list of news articles and every signals record, the
confidence score equals `min(articleCount * 10, 30) +
min(totalSignalCount * 5, 40)` plus flat bonuses of 20 / 15 / 10 for
non-empty funding, leadership and hiring categories, clamped to 100; and
for 2 articles with exactly one funding event and one hiring signal the
score is 60. -/
theorem c1_confidence_score_formula :
    (∀ (newsResults : List NewsArticle) (signals : CompanySignals),
      calculateConfidenceScore newsResults signals =
        min (min (newsResults.length * 10) 30 +
              min (totalSignalCount signals * 5) 40 +
              (if signals.funding_events.length ≠ 0 then 20 else 0) +
              (if signals.leadership_changes.length ≠ 0 then 15 else 0) +
              (if signals.hiring_signals.length ≠ 0 then 10 else 0)) 100) ∧
    calculateConfidenceScore
      [⟨"t1", "c1", "u1", "d1"⟩, ⟨"t2", "c2", "u2", "d2"⟩]
      ⟨[], [.jstr "y"], [.jstr "x"], [], [], [], []⟩ = 60 := by
  constructor
  · intro newsResults signals
    rcases signals with ⟨rn, hs, fe, ta, te, gi, lc⟩
    cases fe <;> cases lc <;> cases hs <;>
      simp [calculateConfidenceScore, totalSignalCount]
  · rfl

/-- When the AI step of enrichment fails, the extracted signals are the
all-empty default. -/
theorem extractSignals_empty_of_failed (ai : AICall)
    (h : aiCallFailed ai = true) :
    extractSignalsFromNews ai = getEmptySignals := by
  cases ai with
  | throws m => rfl
  | returns resp =>
      simp only [aiCallFailed] at h
      simp only [extractSignalsFromNews]
      cases hd : resp.data with
      | none => rfl
      | some d =>
          rw [hd] at h
          simp only [Bool.not_eq_true'] at h
          simp [h]

/-- C2 counterexample: a successful news search with a malformed AI
response (one category a number, another a decodable array) returns a
successful `EnrichmentResult` whose signals are not the all-empty default —
the claim's assertion that a malformed response degrades to empty signals
fails at this input, though the call indeed does not fail. -/
theorem c2_counterexample :
    ∃ r, enrichCompany (Except.ok ([] : List NewsArticle))
        (AICall.returns ⟨true, some partiallyMalformedSignals, none, none,
          none⟩) 0 = Except.ok r ∧
      r.signals ≠ getEmptySignals := by
  refine ⟨_, rfl, ?_⟩
  intro h
  have h2 := congrArg CompanySignals.recent_news h
  simp [enrichCompany, extractSignalsFromNews, partiallyMalformedSignals,
    validateSignals, isJsObjectLike, getProp, arrayOrEmpty, jsTruthy,
    getEmptySignals] at h2

/-- C2 amended: `enrichCompany` fails (with an error wrapping the root
cause) if and only if the news search outcome is itself an error; whenever
the news search succeeds it returns an `EnrichmentResult`; a failed AI step
(rejected call, unsuccessful response, or falsy/absent data) degrades to
the all-empty signals, while a successful, truthy object response —
malformed categories included — degrades per category via
`validateSignals`; neither failure mode fails the call. -/
theorem c2_enrich_error_iff_news_error :
    ∀ (news : Except String (List NewsArticle)) (ai : AICall) (now : Nat),
      ((∃ e, enrichCompany news ai now = Except.error e) ↔
        (∃ e, news = Except.error e)) ∧
      (∀ arts, news = Except.ok arts →
        ∃ r, enrichCompany news ai now = Except.ok r ∧
          (aiCallFailed ai = true → r.signals = getEmptySignals) ∧
          (∀ (resp : AIResponse) (d : JVal), ai = AICall.returns resp →
            resp.data = some d → resp.success = true →
            jsTruthy d = true → r.signals = validateSignals d)) := by
  intro news ai now
  cases news with
  | error msg =>
      refine ⟨⟨fun _ => ⟨msg, rfl⟩, fun _ => ⟨_, rfl⟩⟩, ?_⟩
      intro arts h
      exact absurd h (by simp)
  | ok arts0 =>
      constructor
      · simp [enrichCompany]
      · intro arts h
        refine ⟨_, rfl, ?_, ?_⟩
        · intro hfail
          simpa using extractSignals_empty_of_failed ai hfail
        · intro resp d hai hd hsucc htruthy
          subst hai
          show extractSignalsFromNews (AICall.returns resp) =
            validateSignals d
          simp [extractSignalsFromNews, hd, hsucc, htruthy]

/-- Witness for C2's amended theorem at a concrete input: an empty article
list with a rejected AI call yields a successful enrichment with empty
signals. -/
theorem c2_witness :
    ∃ r, enrichCompany (Except.ok ([] : List NewsArticle))
        (AICall.throws "boom") 0 = Except.ok r ∧
      r.signals = getEmptySignals := by
  obtain ⟨r, hr, hfail, _⟩ :=
    (c2_enrich_error_iff_news_error (Except.ok []) (AICall.throws "boom")
      0).2 [] rfl
  exact ⟨r, hr, hfail rfl⟩

/-- C3 counterexample: a response in which `hiring_signals` is not an array
but `recent_news` is. The validated signals keep the decodable category, so
they are not the all-empty default the claim requires. -/
theorem c3_counterexample :
    extractSignalsFromNews
        (AICall.returns ⟨true, some partiallyMalformedSignals, none, none,
          none⟩) ≠ getEmptySignals ∧
    (extractSignalsFromNews
        (AICall.returns ⟨true, some partiallyMalformedSignals, none, none,
          none⟩)).recent_news = [.jstr "kept"] := by
  constructor
  · intro h
    have h2 := congrArg CompanySignals.recent_news h
    simp [extractSignalsFromNews, partiallyMalformedSignals, validateSignals,
      isJsObjectLike, getProp, arrayOrEmpty, jsTruthy, getEmptySignals] at h2
  · rfl

/-- One category of `validateSignals` on an object response: the category
is kept exactly when its property decodes as an array, and falls back to
the empty list otherwise. -/
theorem arrayOrEmpty_getProp_eq (fields : List (String × JVal)) (key : String) :
    arrayOrEmpty (getProp (.jobj fields) key) =
      (match fields.find? (fun p => p.1 == key) with
        | some (_, .jarr xs) => xs
        | _ => []) := by
  simp only [getProp]
  cases hf : fields.find? (fun p => p.1 == key) with
  | none => rfl
  | some p =>
      rcases p with ⟨k', v⟩
      cases v <;> rfl

/-- C3 amended: validation of the AI response is per category, not
all-or-nothing — on an object response each of the seven categories
independently keeps its property when that property is an array (elements
are not checked to be strings) and becomes the empty list otherwise, and
only a non-object (or falsy) response yields the all-empty default. -/
theorem c3_amended_per_category_validation :
    (∀ (fields : List (String × JVal)) (k : String), k ∈ signalCategories →
      categoryOf (validateSignals (.jobj fields)) k =
        (match fields.find? (fun p => p.1 == k) with
          | some (_, .jarr xs) => xs
          | _ => [])) ∧
    (∀ d : JVal, isJsObjectLike d = false →
      validateSignals d = getEmptySignals) := by
  constructor
  · intro fields k hk
    rw [← arrayOrEmpty_getProp_eq]
    simp only [signalCategories, List.mem_cons, List.mem_singleton,
      List.not_mem_nil, or_false] at hk
    rcases hk with rfl | rfl | rfl | rfl | rfl | rfl | rfl <;>
      simp [categoryOf, validateSignals, isJsObjectLike]
  · intro d hd
    simp [validateSignals, hd]

/-- Witness for C3's amended theorem at a concrete input: on the partially
malformed response, `hiring_signals` (a number) is emptied while
`recent_news` (an array) is kept. -/
theorem c3_amended_witness :
    categoryOf
        (validateSignals (.jobj [("recent_news", .jarr [.jstr "kept"]),
          ("hiring_signals", .jnum 5)])) "hiring_signals" = [] ∧
    categoryOf
        (validateSignals (.jobj [("recent_news", .jarr [.jstr "kept"]),
          ("hiring_signals", .jnum 5)])) "recent_news" = [.jstr "kept"] := by
  constructor
  · exact c3_amended_per_category_validation.1 _ "hiring_signals"
      (by simp [signalCategories])
  · exact c3_amended_per_category_validation.1 _ "recent_news"
      (by simp [signalCategories])

/-- C4 counterexample: the active parser's header normalization does not
map the synonym `company` to `name`; it passes it through unchanged. -/
theorem c4_counterexample :
    CSVParser.normalizeHeader "company" = "company" ∧
    CSVParser.normalizeHeader "company" ≠ "name" ∧
    CSVParser.normalizeHeader "website" ≠ "domain" ∧
    CSVParser.normalizeHeader "location" ≠ "country" := by
  refine ⟨rfl, ?_, ?_, ?_⟩ <;> decide

/-- C4 amended: the full synonym map (company_name, company → name;
website, url → domain; employees, size, headcount → employee_size;
location → country) lives in the legacy upload service's header
normalization; the active `CSVParser.normalizeHeader` maps only
`company_name` to `name` (with `domain` and `employee_size` mapped to
themselves); both leave every unrecognized header unchanged after
lowercasing and trimming. -/
theorem c4_amended_header_normalization :
    (LegacyUploadService.normalizeHeader "company_name" = "name" ∧
      LegacyUploadService.normalizeHeader "company" = "name" ∧
      LegacyUploadService.normalizeHeader "website" = "domain" ∧
      LegacyUploadService.normalizeHeader "url" = "domain" ∧
      LegacyUploadService.normalizeHeader "employees" = "employee_size" ∧
      LegacyUploadService.normalizeHeader "size" = "employee_size" ∧
      LegacyUploadService.normalizeHeader "headcount" = "employee_size" ∧
      LegacyUploadService.normalizeHeader "location" = "country") ∧
    (CSVParser.normalizeHeader "company_name" = "name" ∧
      CSVParser.normalizeHeader "domain" = "domain" ∧
      CSVParser.normalizeHeader "employee_size" = "employee_size") ∧
    (∀ h : String,
      strTrim (strToLower h) ∉
          LegacyUploadService.headerMap.map (fun p => p.1) →
      LegacyUploadService.normalizeHeader h = strTrim (strToLower h)) ∧
    (∀ h : String,
      strTrim (strToLower h) ∉ CSVParser.headerMap.map (fun p => p.1) →
      CSVParser.normalizeHeader h = strTrim (strToLower h)) := by
  refine ⟨⟨rfl, rfl, rfl, rfl, rfl, rfl, rfl, rfl⟩, ⟨rfl, rfl, rfl⟩, ?_, ?_⟩
  · intro h hmem
    have hnone : LegacyUploadService.headerMap.find?
        (fun p => p.1 == strTrim (strToLower h)) = none := by
      rw [List.find?_eq_none]
      intro p hp
      simp only [beq_iff_eq]
      intro hteq
      exact hmem (List.mem_map.mpr ⟨p, hp, hteq⟩)
    simp [LegacyUploadService.normalizeHeader, hnone]
  · intro h hmem
    have hnone : CSVParser.headerMap.find?
        (fun p => p.1 == strTrim (strToLower h)) = none := by
      rw [List.find?_eq_none]
      intro p hp
      simp only [beq_iff_eq]
      intro hteq
      exact hmem (List.mem_map.mpr ⟨p, hp, hteq⟩)
    simp [CSVParser.normalizeHeader, hnone]

/-- Witness for C4's amended theorem: an unrecognized header passes through
both normalizations lowercased and trimmed. -/
theorem c4_amended_witness :
    LegacyUploadService.normalizeHeader " Custom Field " = "custom field" ∧
    CSVParser.normalizeHeader " Custom Field " = "custom field" := by
  constructor
  · have h := c4_amended_header_normalization.2.2.1 " Custom Field "
      (by decide)
    simpa using h
  · have h := c4_amended_header_normalization.2.2.2 " Custom Field "
      (by decide)
    simpa using h

/-- C5: with default options, `parse` fails exactly when the input has
fewer than 2 non-empty lines (no header plus at least one data row); on
every other input it returns a result, malformed lines included. -/
theorem c5_parse_error_iff_too_few_lines (csvData : String) :
    (∃ e, CSVParser.parse CSVParser.defaultOptions csvData =
        Except.error e) ↔
      ((splitLines csvData).filter (fun l => (strTrim l).length > 0)).length
        < 2 := by
  have hpre : (splitLines csvData).filter
        (fun l => (strTrim l).length > 0) =
      CSVParser.preprocessLines CSVParser.defaultOptions csvData := rfl
  rw [hpre]
  simp only [CSVParser.parse]
  cases CSVParser.preprocessLines CSVParser.defaultOptions csvData with
  | nil => simp
  | cons a t =>
      cases t with
      | nil => simp
      | cons b t2 =>
          simp only [List.length_cons]
          constructor
          · rintro ⟨e, he⟩
            exact absurd he (by simp)
          · intro hlt
            omega

/-- Witness for C5 at concrete inputs: a header-only input fails, a
two-line input parses. -/
theorem c5_witness :
    (∃ e, CSVParser.parse CSVParser.defaultOptions "name,domain" =
      Except.error e) ∧
    ¬(∃ e, CSVParser.parse CSVParser.defaultOptions "name\nAcme" =
      Except.error e) := by
  constructor
  · exact (c5_parse_error_iff_too_few_lines "name,domain").mpr (by decide)
  · intro hc
    exact absurd ((c5_parse_error_iff_too_few_lines "name\nAcme").mp hc)
      (by decide)

/-- The cleaning fold's counts do not depend on the row offset: the error
count is the number of rows on which `cleanData` is null, and the
collected responses are as many as the rows on which it is not. -/
theorem cleaningPhaseFrom_counts (pairs : List (RawRecord × AICall))
    (i : Nat) :
    (UploadService.cleaningPhaseFrom i pairs).cleaningErrors =
      pairs.countP
        (fun p => (CompanyDataAICleaner.cleanData p.1 p.2).isNone) ∧
    (UploadService.cleaningPhaseFrom i pairs).cleanedCompanies.length =
      pairs.countP
        (fun p => (CompanyDataAICleaner.cleanData p.1 p.2).isSome) := by
  induction pairs generalizing i with
  | nil => simp [UploadService.cleaningPhaseFrom]
  | cons hd tl ih =>
      obtain ⟨row, ai⟩ := hd
      have ih' := ih (i + 1)
      simp only [UploadService.cleaningPhaseFrom]
      cases h : CompanyDataAICleaner.cleanData row ai with
      | some r => simp [List.countP_cons, h, ih'.1, ih'.2]
      | none => simp [List.countP_cons, h, ih'.1, ih'.2]

/-- On every list, the null and non-null cleaning outcomes partition it. -/
theorem countP_cleanData_partition (pairs : List (RawRecord × AICall)) :
    pairs.countP (fun p => (CompanyDataAICleaner.cleanData p.1 p.2).isSome) +
      pairs.countP
        (fun p => (CompanyDataAICleaner.cleanData p.1 p.2).isNone) =
      pairs.length := by
  induction pairs with
  | nil => simp
  | cons hd tl ih =>
      cases h : CompanyDataAICleaner.cleanData hd.1 hd.2 <;>
        simp [List.countP_cons, h] <;> omega

/-- A non-null cleaning response always carries a payload (`cleanData`
only builds success responses around an extracted record), so every
response collected by the cleaning phase proceeds to an upsert rather than
the null-payload guard. -/
theorem cleanData_payload (raw : RawRecord) (ai : AICall)
    (r : CompanyDataAICleaner.CleaningResponse)
    (h : CompanyDataAICleaner.cleanData raw ai = some r) :
    r.data.isSome := by
  simp only [CompanyDataAICleaner.cleanData] at h
  repeat' split at h
  all_goals cases h
  rfl

/-- Every response collected by the cleaning fold carries a payload. -/
theorem cleaningPhaseFrom_payload (pairs : List (RawRecord × AICall))
    (i : Nat) :
    ∀ r ∈ (UploadService.cleaningPhaseFrom i pairs).cleanedCompanies,
      r.data.isSome := by
  induction pairs generalizing i with
  | nil => simp [UploadService.cleaningPhaseFrom]
  | cons hd tl ih =>
      obtain ⟨row, ai⟩ := hd
      simp only [UploadService.cleaningPhaseFrom]
      cases h : CompanyDataAICleaner.cleanData row ai with
      | some r =>
          intro r' hr'
          simp only [List.mem_cons] at hr'
          rcases hr' with rfl | hr'
          · exact cleanData_payload row ai r' h
          · exact ih (i + 1) r' hr'
      | none => exact ih (i + 1)

/-- C7: over N validated rows of which exactly K fail cleaning, the
cleaning phase counts exactly K errors and hands exactly N − K responses
(each carrying a payload) to the upsert phase, independently of which rows
fail and — since the counts are permutation-invariant and `allSettled`
reads results in input order — of the order in which the tasks settle. -/
theorem c7_cleaning_phase_counts (pairs : List (RawRecord × AICall)) :
    (UploadService.cleaningPhase pairs).cleaningErrors =
      pairs.countP
        (fun p => (CompanyDataAICleaner.cleanData p.1 p.2).isNone) ∧
    (UploadService.cleaningPhase pairs).cleanedCompanies.length =
      pairs.length -
        pairs.countP
          (fun p => (CompanyDataAICleaner.cleanData p.1 p.2).isNone) ∧
    (∀ r ∈ (UploadService.cleaningPhase pairs).cleanedCompanies,
      r.data.isSome) ∧
    (∀ pairs', pairs.Perm pairs' →
      (UploadService.cleaningPhase pairs').cleaningErrors =
        (UploadService.cleaningPhase pairs).cleaningErrors ∧
      (UploadService.cleaningPhase pairs').cleanedCompanies.length =
        (UploadService.cleaningPhase pairs).cleanedCompanies.length) := by
  have hc := cleaningPhaseFrom_counts pairs 0
  have hp := countP_cleanData_partition pairs
  refine ⟨hc.1, ?_, cleaningPhaseFrom_payload pairs 0, ?_⟩
  · show (UploadService.cleaningPhaseFrom 0 pairs).cleanedCompanies.length
        = _
    have h2 := hc.2
    omega
  · intro pairs' hperm
    have hc' := cleaningPhaseFrom_counts pairs' 0
    have h1 := hperm.countP_eq
      (fun p => (CompanyDataAICleaner.cleanData p.1 p.2).isNone)
    have h2 := hperm.countP_eq
      (fun p => (CompanyDataAICleaner.cleanData p.1 p.2).isSome)
    constructor
    · show (UploadService.cleaningPhaseFrom 0 pairs').cleaningErrors =
        (UploadService.cleaningPhaseFrom 0 pairs).cleaningErrors
      rw [hc'.1, hc.1, h1]
    · show (UploadService.cleaningPhaseFrom 0
            pairs').cleanedCompanies.length =
        (UploadService.cleaningPhaseFrom 0 pairs).cleanedCompanies.length
      rw [hc'.2, hc.2, h2]

/-- Witness for C7 at a concrete input: of three tasks of which the middle
one fails, the phase counts one error and two collected responses, and the
counts are unchanged when the first two tasks are swapped. -/
theorem c7_witness :
    (UploadService.cleaningPhase samplePairs).cleaningErrors = 1 ∧
    (UploadService.cleaningPhase samplePairs).cleanedCompanies.length = 2 ∧
    (UploadService.cleaningPhase samplePairsSwapped).cleaningErrors = 1 ∧
    (UploadService.cleaningPhase
        samplePairsSwapped).cleanedCompanies.length = 2 := by
  have h := c7_cleaning_phase_counts samplePairs
  have hswap : samplePairs.Perm samplePairsSwapped := List.Perm.swap _ _ _
  have hs := h.2.2.2 samplePairsSwapped hswap
  refine ⟨?_, ?_, ?_, ?_⟩
  · rw [h.1]; rfl
  · rw [h.2.1]; rfl
  · rw [hs.1, h.1]; rfl
  · rw [hs.2, h.2.1]; rfl

/-- A row whose `name` and `domain` fields are both falsy contributes the
business-rule diagnostic at its offset-adjusted 1-based index. -/
theorem validateBusinessRulesFrom_mem_of_missing (rows : List RawRecord) :
    ∀ (k i : Nat) (row : RawRecord),
      rows.get? i = some row →
      jsTruthyField (jsGet row "name") = false →
      jsTruthyField (jsGet row "domain") = false →
      (⟨k + i + 2, row, "Company must have either a name or domain"⟩ :
          ValidationError) ∈
        CSVValidator.validateBusinessRulesFrom k rows := by
  induction rows with
  | nil => intro k i row hget _ _; simp at hget
  | cons hd tl ih =>
      intro k i row hget hname hdom
      cases i with
      | zero =>
          have hhd : hd = row := by simpa using hget
          subst hhd
          simp [CSVValidator.validateBusinessRulesFrom, hname, hdom]
      | succ n =>
          have hget' : tl.get? n = some row := by simpa using hget
          have hmem := ih (k + 1) n row hget' hname hdom
          have harith : k + 1 + n + 2 = k + (n + 1) + 2 := by omega
          rw [harith] at hmem
          simp only [CSVValidator.validateBusinessRulesFrom,
            List.mem_append]
          exact Or.inr hmem

/-- C6: every parsed row whose `name` and `domain` are both missing or
empty is excluded from the rows handed to the AI cleaner, the validation
phase records the diagnostic `Row <i+2>: Company must have either a name
or domain` for it, and whenever `processCSV` returns a result on an input
parsing to those rows, that diagnostic is in the result's `errorDetails`. -/
theorem c6_missing_name_and_domain (rows : List RawRecord) (i : Nat)
    (row : RawRecord) (hget : rows.get? i = some row)
    (hname : jsTruthyField (jsGet row "name") = false)
    (hdom : jsTruthyField (jsGet row "domain") = false) :
    row ∉ (UploadService.validationPhase rows).validatedRows ∧
    ("Row " ++ toString (i + 2) ++ ": " ++
      "Company must have either a name or domain") ∈
      (UploadService.validationPhase rows).errorDetails ∧
    (∀ (opts : CSVParseOptions) (enable : Bool) (cleanAI : Nat → AICall)
        (dbFail : Nat → Option String) (ids : Nat → Nat)
        (news : Nat → Except String (List NewsArticle))
        (enrichAI : Nat → AICall) (now : Nat) (store : Store)
        (csvData : String) (pr : CSVParseResult)
        (p : UploadResult × Store),
      CSVParser.parse opts csvData = Except.ok pr →
      pr.data = rows →
      UploadService.processCSV opts enable cleanAI dbFail ids news
          enrichAI now store csvData = Except.ok p →
      ("Row " ++ toString (i + 2) ++ ": " ++
        "Company must have either a name or domain") ∈
        p.1.errorDetails) := by
  have hmem0 := validateBusinessRulesFrom_mem_of_missing rows 0 i row hget
    hname hdom
  simp only [Nat.zero_add] at hmem0
  have hvr : (UploadService.validationPhase rows).validatedRows =
      rows.filter (fun r =>
        !((CSVValidator.validateBusinessRulesFrom 0 rows).any
          (fun e => e.data == r))) := rfl
  have hvp : (UploadService.validationPhase rows).errorDetails =
      (CSVValidator.validateBusinessRulesFrom 0 rows).map
        UploadService.formatRowError := rfl
  have part1 : row ∉ (UploadService.validationPhase rows).validatedRows := by
    rw [hvr]
    intro hmemf
    have hpred := (List.mem_filter.mp hmemf).2
    rw [Bool.not_eq_true', List.any_eq_false] at hpred
    have := hpred _ hmem0
    simp at this
  have part2 : ("Row " ++ toString (i + 2) ++ ": " ++
      "Company must have either a name or domain") ∈
      (UploadService.validationPhase rows).errorDetails := by
    rw [hvp]
    exact List.mem_map.mpr ⟨_, hmem0, rfl⟩
  refine ⟨part1, part2, ?_⟩
  intro opts enable cleanAI dbFail ids news enrichAI now store csvData pr
    p hparse hdata hok
  subst hdata
  rw [UploadService.processCSV, hparse] at hok
  dsimp only at hok
  repeat' split at hok
  · exact absurd hok (by simp)
  · exact absurd hok (by simp)
  · rw [Except.ok.injEq] at hok
    subst hok
    simp only [List.mem_append]
    exact Or.inl (Or.inl (Or.inl (Or.inr part2)))
  · rw [Except.ok.injEq] at hok
    subst hok
    simp only [List.mem_append]
    exact Or.inl (Or.inl (Or.inr part2))
  · rw [Except.ok.injEq] at hok
    subst hok
    simp only [List.mem_append]
    exact Or.inl (Or.inl (Or.inr part2))

/-- Witness for C6 at a concrete end-to-end run: on the two-row sample CSV
whose second data row is empty, that row is excluded from cleaning, the
diagnostic for row 3 is recorded, and the completed run reports it. -/
theorem c6_witness :
    ([("name", ""), ("domain", "")] : RawRecord) ∉
      (UploadService.validationPhase sampleRows).validatedRows ∧
    ("Row " ++ toString (1 + 2) ++ ": " ++
      "Company must have either a name or domain") ∈
      (UploadService.validationPhase sampleRows).errorDetails ∧
    ("Row " ++ toString (1 + 2) ++ ": " ++
      "Company must have either a name or domain") ∈
      sampleResult.errorDetails := by
  have h := c6_missing_name_and_domain sampleRows 1
    [("name", ""), ("domain", "")] rfl rfl rfl
  refine ⟨h.1, h.2.1, ?_⟩
  exact h.2.2 CSVParser.defaultOptions false (fun _ => sampleAI)
    (fun _ => none) (fun n => n) (fun _ => Except.ok [])
    (fun _ => sampleAI) 0 [] sampleCsv ⟨sampleRows, []⟩
    (sampleResult, [sampleCompany]) rfl rfl rfl

/-- C8 counterexample: a response body whose `country` is null passes the
cleaner's validator, and the cleaning succeeds with a record whose country
is not a string — the claim's shape (`country` a string, violating
responses rejected) fails on it. -/
theorem c8_counterexample :
    CompanyDataAICleaner.isValidCleanedData nullCountryBody = true ∧
    CompanyDataAICleaner.cleanData [("name", "Acme")]
        (AICall.returns ⟨true, some nullCountryBody, none, none, none⟩) =
      some { success := true
             data := some ⟨"Acme", none, none, "1-10", [("name", "Acme")]⟩
             error := none
             tokensUsed := none
             cost := none } := by
  exact ⟨rfl, rfl⟩

/-- C8 amended: every successful cleaning is a success response whose
payload has a non-empty string name, an `employee_size` among the eight
bucket labels, and the original raw row as `raw_json` (its `domain` and
`country` are strings or null by construction — the validator deliberately
admits a null country although the declared type says string); and every
resolved response whose data fails shape validation is rejected. -/
theorem c8_amended_cleaned_shape :
    (∀ (raw : RawRecord) (ai : AICall)
        (r : CompanyDataAICleaner.CleaningResponse),
      CompanyDataAICleaner.cleanData raw ai = some r →
      r.success = true ∧
      ∃ c, r.data = some c ∧ c.name ≠ "" ∧
        c.employee_size ∈ EMPLOYEE_SIZE_BUCKETS ∧ c.raw_json = raw) ∧
    (∀ (raw : RawRecord) (resp : AIResponse) (d : JVal),
      resp.data = some d →
      CompanyDataAICleaner.isValidCleanedData d = false →
      CompanyDataAICleaner.cleanData raw (AICall.returns resp) = none) := by
  have hname_of_valid : ∀ (d : JVal) (raw : RawRecord),
      CompanyDataAICleaner.isValidCleanedData d = true →
      (CompanyDataAICleaner.extractCleaned d raw).name ≠ "" := by
    intro d raw hvalid
    cases d with
    | jobj fields =>
        simp only [CompanyDataAICleaner.isValidCleanedData,
          Bool.and_eq_true] at hvalid
        obtain ⟨⟨⟨hname, _⟩, _⟩, _⟩ := hvalid
        cases hgp : getProp (.jobj fields) "name" with
        | none => rw [hgp] at hname; cases hname
        | some v =>
            rw [hgp] at hname
            cases v with
            | jstr s =>
                simp only [CompanyDataAICleaner.extractCleaned, hgp]
                intro he
                rw [he] at hname
                simp at hname
            | jnull => cases hname
            | jbool b => cases hname
            | jnum n => cases hname
            | jarr xs => cases hname
            | jobj f2 => cases hname
    | jnull => cases hvalid
    | jbool b => cases hvalid
    | jnum n => cases hvalid
    | jstr s => cases hvalid
    | jarr xs => cases hvalid
  have hsize_of_valid : ∀ (d : JVal) (raw : RawRecord),
      CompanyDataAICleaner.isValidCleanedData d = true →
      (CompanyDataAICleaner.extractCleaned d raw).employee_size ∈
        EMPLOYEE_SIZE_BUCKETS := by
    intro d raw hvalid
    cases d with
    | jobj fields =>
        simp only [CompanyDataAICleaner.isValidCleanedData,
          Bool.and_eq_true] at hvalid
        obtain ⟨_, hsize⟩ := hvalid
        cases hgp : getProp (.jobj fields) "employee_size" with
        | none => rw [hgp] at hsize; cases hsize
        | some v =>
            rw [hgp] at hsize
            cases v with
            | jstr s =>
                simp only [CompanyDataAICleaner.extractCleaned, hgp]
                exact List.mem_of_elem_eq_true hsize
            | jnull => cases hsize
            | jbool b => cases hsize
            | jnum n => cases hsize
            | jarr xs => cases hsize
            | jobj f2 => cases hsize
    | jnull => cases hvalid
    | jbool b => cases hvalid
    | jnum n => cases hvalid
    | jstr s => cases hvalid
    | jarr xs => cases hvalid
  constructor
  · intro raw ai r h
    simp only [CompanyDataAICleaner.cleanData] at h
    cases hn : jsGet raw "name" with
    | none => rw [hn] at h; exact absurd h (by simp)
    | some nm =>
        rw [hn] at h
        dsimp only at h
        by_cases htrim : (strTrim nm == "") = true
        · rw [if_pos htrim] at h
          exact absurd h (by simp)
        · rw [if_neg htrim] at h
          cases ai with
          | throws m => exact absurd h (by simp)
          | returns resp =>
              cases hd : resp.data with
              | none =>
                  simp only [hd] at h
                  exact absurd h (by simp)
              | some d =>
                  simp only [hd] at h
                  by_cases hfail : (!resp.success || !jsTruthy d) = true
                  · rw [if_pos hfail] at h
                    exact absurd h (by simp)
                  · rw [if_neg hfail] at h
                    by_cases hval :
                        (!CompanyDataAICleaner.isValidCleanedData d) = true
                    · rw [if_pos hval] at h
                      exact absurd h (by simp)
                    · rw [if_neg hval] at h
                      have hvalid :
                          CompanyDataAICleaner.isValidCleanedData d
                            = true := by
                        simpa using hval
                      cases h
                      exact ⟨rfl, CompanyDataAICleaner.extractCleaned d raw,
                        rfl, hname_of_valid d raw hvalid,
                        hsize_of_valid d raw hvalid, rfl⟩
  · intro raw resp d hd hinvalid
    simp only [CompanyDataAICleaner.cleanData, hd, hinvalid]
    cases jsGet raw "name" with
    | none => rfl
    | some nm => simp [hinvalid]

/-- Witness for C8's amended theorem at a concrete input: the successful
cleaning of the sample row yields a payload with a non-empty name, a valid
bucket and the original row attached. -/
theorem c8_amended_witness :
    sampleCleanResponse.success = true ∧
    ∃ c, sampleCleanResponse.data = some c ∧ c.name ≠ "" ∧
      c.employee_size ∈ EMPLOYEE_SIZE_BUCKETS ∧
      c.raw_json = sampleRowAcme :=
  c8_amended_cleaned_shape.1 sampleRowAcme sampleAI sampleCleanResponse rfl

/-- A search over an appended list continues on the right half when the
left half has no match. -/
theorem find?_append_eq_right {α : Type} (p : α → Bool) (l1 l2 : List α)
    (h : l1.find? p = none) : (l1 ++ l2).find? p = l2.find? p := by
  induction l1 with
  | nil => simp
  | cons a t ih =>
      cases hpa : p a with
      | true =>
          rw [List.find?_cons_of_pos _ hpa] at h
          cases h
      | false =>
          rw [List.find?_cons_of_neg _ (by simp [hpa])] at h
          rw [List.cons_append, List.find?_cons_of_neg _ (by simp [hpa])]
          exact ih h

/-- When the store holds no match for a cleaned record's domain or name,
`upsertCompany` inserts a fresh row and reports no update. -/
theorem upsertCompany_inserts (s : Store) (nc : CleanCompany)
    (newId now : Nat)
    (hname : nc.name ≠ "")
    (hnames : ∀ c ∈ s, c.name ≠ nc.name)
    (hdoms : ∀ d, nc.domain = some d → d ≠ "" →
      ∀ c ∈ s, c.domain ≠ some d) :
    CompanyStore.upsertCompany s nc newId now =
      (s ++ [CompanyStore.createCompany nc newId now],
        CompanyStore.createCompany nc newId now, false) := by
  have hfindName : CompanyStore.findByName s nc.name = none := by
    rw [CompanyStore.findByName, List.find?_eq_none]
    intro c hc
    simp only [beq_iff_eq]
    exact hnames c hc
  have hbyDom : (match nc.domain with
      | some d => if d ≠ "" then CompanyStore.findByDomain s d else none
      | none => none) = none := by
    cases hdo : nc.domain with
    | none => rfl
    | some d =>
        show (if d ≠ "" then CompanyStore.findByDomain s d else none) = none
        by_cases hd : d = ""
        · simp [hd]
        · rw [if_pos hd]
          rw [CompanyStore.findByDomain, List.find?_eq_none]
          intro c hc
          simp only [beq_iff_eq]
          exact hdoms d hdo hd c hc
  simp only [CompanyStore.upsertCompany]
  rw [hbyDom]
  simp [hname, hfindName]

/-- When the domain lookup finds a row, or finds nothing while the name
lookup does, `upsertCompany` overwrites that row in place and reports an
update. -/
theorem upsertCompany_updates (s : Store) (nc : CleanCompany)
    (newId now : Nat) (e : Company)
    (hexist :
      (match nc.domain with
        | some d => if d ≠ "" then CompanyStore.findByDomain s d else none
        | none => none) = some e ∨
      ((match nc.domain with
        | some d => if d ≠ "" then CompanyStore.findByDomain s d else none
        | none => none) = none ∧ nc.name ≠ "" ∧
        CompanyStore.findByName s nc.name = some e)) :
    CompanyStore.upsertCompany s nc newId now =
      (s.map (fun c =>
          if c.id == e.id then CompanyStore.applyCleanedFields e nc now
          else c),
        CompanyStore.applyCleanedFields e nc now, true) := by
  simp only [CompanyStore.upsertCompany]
  rcases hexist with hfound | ⟨hnone, hname, hfound⟩
  · rw [hfound]
  · rw [hnone]
    simp [hname, hfound]

/-- C9: upserting a cleaned record twice, sequentially, against a store
holding no match for its name or domain (and no row with the fresh id)
inserts on the first call (`wasUpdated = false`), finds and updates that
very row on the second (`wasUpdated = true`), leaving the store exactly
one row larger with exactly one row for the record's name. -/
theorem c9_upsert_twice_idempotent (s : Store) (nc : CleanCompany)
    (id1 id2 now1 now2 : Nat)
    (hname : nc.name ≠ "")
    (hnames : ∀ c ∈ s, c.name ≠ nc.name)
    (hdoms : ∀ d, nc.domain = some d → d ≠ "" →
      ∀ c ∈ s, c.domain ≠ some d)
    (hids : ∀ c ∈ s, c.id ≠ id1) :
    (CompanyStore.upsertCompany s nc id1 now1).2.2 = false ∧
    (CompanyStore.upsertCompany
        (CompanyStore.upsertCompany s nc id1 now1).1 nc id2 now2).2.2 =
      true ∧
    (CompanyStore.upsertCompany
        (CompanyStore.upsertCompany s nc id1 now1).1 nc id2
        now2).1.length = s.length + 1 ∧
    (CompanyStore.upsertCompany
        (CompanyStore.upsertCompany s nc id1 now1).1 nc id2
        now2).2.1.id = id1 ∧
    ((CompanyStore.upsertCompany
          (CompanyStore.upsertCompany s nc id1 now1).1 nc id2 now2).1.filter
        (fun c => c.name == nc.name)).length = 1 := by
  have h1 := upsertCompany_inserts s nc id1 now1 hname hnames hdoms
  rw [h1]
  have hnames1 : (CompanyStore.findByName s nc.name) = none := by
    rw [CompanyStore.findByName, List.find?_eq_none]
    intro c hc
    simp only [beq_iff_eq]
    exact hnames c hc
  have hexist :
      (match nc.domain with
        | some d =>
            if d ≠ "" then
              CompanyStore.findByDomain
                (s ++ [CompanyStore.createCompany nc id1 now1]) d
            else none
        | none => none) =
          some (CompanyStore.createCompany nc id1 now1) ∨
      ((match nc.domain with
        | some d =>
            if d ≠ "" then
              CompanyStore.findByDomain
                (s ++ [CompanyStore.createCompany nc id1 now1]) d
            else none
        | none => none) = none ∧ nc.name ≠ "" ∧
        CompanyStore.findByName
          (s ++ [CompanyStore.createCompany nc id1 now1]) nc.name =
          some (CompanyStore.createCompany nc id1 now1)) := by
    have hfindName2 : CompanyStore.findByName
        (s ++ [CompanyStore.createCompany nc id1 now1]) nc.name =
        some (CompanyStore.createCompany nc id1 now1) := by
      rw [CompanyStore.findByName, find?_append_eq_right]
      · simp [CompanyStore.createCompany]
      · rw [List.find?_eq_none]
        intro c hc
        simp only [beq_iff_eq]
        exact hnames c hc
    cases hdo : nc.domain with
    | none => exact Or.inr ⟨rfl, hname, hfindName2⟩
    | some d =>
        by_cases hd : d = ""
        · refine Or.inr ⟨?_, hname, hfindName2⟩
          show (if d ≠ "" then _ else none) = none
          simp [hd]
        · refine Or.inl ?_
          show (if d ≠ "" then
            CompanyStore.findByDomain
              (s ++ [CompanyStore.createCompany nc id1 now1]) d
            else none) = _
          rw [if_pos hd, CompanyStore.findByDomain, find?_append_eq_right]
          · simp [CompanyStore.createCompany, hdo]
          · rw [List.find?_eq_none]
            intro c hc
            simp only [beq_iff_eq]
            exact hdoms d hdo hd c hc
  have h2 := upsertCompany_updates
    (s ++ [CompanyStore.createCompany nc id1 now1]) nc id2 now2
    (CompanyStore.createCompany nc id1 now1) hexist
  rw [h2]
  have hmapeq : (s ++ [CompanyStore.createCompany nc id1 now1]).map
      (fun c =>
        if c.id == (CompanyStore.createCompany nc id1 now1).id then
          CompanyStore.applyCleanedFields
            (CompanyStore.createCompany nc id1 now1) nc now2
        else c) =
      s ++ [CompanyStore.applyCleanedFields
        (CompanyStore.createCompany nc id1 now1) nc now2] := by
    rw [List.map_append]
    congr 1
    · have hall : ∀ a ∈ s,
          (if a.id == (CompanyStore.createCompany nc id1 now1).id then
            CompanyStore.applyCleanedFields
              (CompanyStore.createCompany nc id1 now1) nc now2
          else a) = id a := by
        intro a ha
        rw [if_neg]
        · rfl
        · simp only [beq_iff_eq]
          exact hids a ha
      calc s.map _ = s.map id := List.map_congr_left hall
        _ = s := List.map_id s
    · simp
  rw [hmapeq]
  refine ⟨rfl, rfl, by simp, rfl, ?_⟩
  rw [List.filter_append]
  have hfs : s.filter (fun c => c.name == nc.name) = [] := by
    rw [List.filter_eq_nil_iff]
    intro a ha
    simp only [beq_iff_eq]
    exact hnames a ha
  rw [hfs]
  simp [CompanyStore.applyCleanedFields]

/-- Witness for C9 at a concrete input: two sequential upserts of the same
cleaned record against the empty store insert then update, leaving one
row. -/
theorem c9_witness :
    (CompanyStore.upsertCompany [] sampleNewCompany 7 1).2.2 = false ∧
    (CompanyStore.upsertCompany
        (CompanyStore.upsertCompany [] sampleNewCompany 7 1).1
        sampleNewCompany 9 2).2.2 = true ∧
    (CompanyStore.upsertCompany
        (CompanyStore.upsertCompany [] sampleNewCompany 7 1).1
        sampleNewCompany 9 2).1.length = 1 ∧
    (CompanyStore.upsertCompany
        (CompanyStore.upsertCompany [] sampleNewCompany 7 1).1
        sampleNewCompany 9 2).2.1.id = 7 ∧
    ((CompanyStore.upsertCompany
          (CompanyStore.upsertCompany [] sampleNewCompany 7 1).1
          sampleNewCompany 9 2).1.filter
        (fun c => c.name == sampleNewCompany.name)).length = 1 :=
  c9_upsert_twice_idempotent [] sampleNewCompany 7 9 1 2 (by decide)
    (by simp) (by simp) (by simp)

/-- C10: when an incoming record's domain is present and truthy but
matches no stored company, the upsert falls back to the name lookup; if a
company with the same name exists, it is overwritten in place — its domain
replaced by the incoming one — with `wasUpdated = true` and no new row. -/
theorem c10_name_fallback_overwrites (s : Store) (nc : CleanCompany)
    (d : String) (e : Company) (newId now : Nat)
    (hdom : nc.domain = some d) (hd : d ≠ "")
    (hnodomain : ∀ c ∈ s, c.domain ≠ some d)
    (hname : nc.name ≠ "")
    (hfound : CompanyStore.findByName s nc.name = some e) :
    (CompanyStore.upsertCompany s nc newId now).2.2 = true ∧
    (CompanyStore.upsertCompany s nc newId now).1.length = s.length ∧
    (CompanyStore.upsertCompany s nc newId now).2.1.id = e.id ∧
    (CompanyStore.upsertCompany s nc newId now).2.1.domain = some d ∧
    (CompanyStore.upsertCompany s nc newId now).2.1.name = nc.name ∧
    (∀ c ∈ (CompanyStore.upsertCompany s nc newId now).1,
      c.id = e.id → c.domain = some d) := by
  have hbyDom : (match nc.domain with
      | some d' => if d' ≠ "" then CompanyStore.findByDomain s d' else none
      | none => none) = none := by
    rw [hdom]
    show (if d ≠ "" then CompanyStore.findByDomain s d else none) = none
    rw [if_pos hd, CompanyStore.findByDomain, List.find?_eq_none]
    intro c hc
    simp only [beq_iff_eq]
    exact hnodomain c hc
  have h2 := upsertCompany_updates s nc newId now e
    (Or.inr ⟨hbyDom, hname, hfound⟩)
  rw [h2]
  refine ⟨rfl, by simp, rfl, ?_, rfl, ?_⟩
  · show nc.domain = some d
    exact hdom
  · intro c hc hcid
    rw [List.mem_map] at hc
    obtain ⟨a, ha, hfa⟩ := hc
    by_cases hba : (a.id == e.id) = true
    · rw [if_pos hba] at hfa
      rw [← hfa]
      show nc.domain = some d
      exact hdom
    · rw [if_neg hba] at hfa
      rw [← hfa] at hcid
      exact absurd hcid (by simpa using hba)

/-- Witness for C10 at a concrete input: a record with a fresh domain and
an existing name overwrites the stored row, replacing its null domain. -/
theorem c10_witness :
    (CompanyStore.upsertCompany [sampleExisting] sampleNewCompany
        3 4).2.2 = true ∧
    (CompanyStore.upsertCompany [sampleExisting] sampleNewCompany
        3 4).1.length = 1 ∧
    (CompanyStore.upsertCompany [sampleExisting] sampleNewCompany
        3 4).2.1.id = 5 ∧
    (CompanyStore.upsertCompany [sampleExisting] sampleNewCompany
        3 4).2.1.domain = some "acme.com" ∧
    (CompanyStore.upsertCompany [sampleExisting] sampleNewCompany
        3 4).2.1.name = "Acme" ∧
    (∀ c ∈ (CompanyStore.upsertCompany [sampleExisting] sampleNewCompany
        3 4).1, c.id = 5 → c.domain = some "acme.com") :=
  c10_name_fallback_overwrites [sampleExisting] sampleNewCompany
    "acme.com" sampleExisting 3 4 rfl (by decide) (by decide) (by decide)
    rfl

end Throxy
